import Mathlib

/-!
Verification of the `sigq` FIFO queue (src/src/lib.rs).

The queue's shared state is a `VecDeque<I>` guarded by a mutex, paired with a
condition variable.  Every operation takes the lock before touching the
buffer, so in this development the buffer is a plain `List I` (head of the
list = front of the deque) and each locked critical section is one pure
function.  The condition variable carries no data, so it has no counterpart
in the sequential embedding; the blocking wait loop in `Queue::pop` becomes a
fuel-indexed loop in which a wake-up with no intervening push leaves the
buffer unchanged.
-/

namespace Sigq

/-- The front removal of the deque, `VecDeque::pop_front`: `none` when the
deque is empty, otherwise the head item and the remaining items. -/
def pop_front {I : Type} : List I → Option (I × List I)
  | [] => none
  | x :: xs => some (x, xs)

/-- The tail insertion of the deque, `VecDeque::push_back`. -/
def push_back {I : Type} (xs : List I) (x : I) : List I := xs ++ [x]

/-- The emptiness test of the deque, `VecDeque::is_empty`. -/
def is_empty {I : Type} (xs : List I) : Bool := xs.isEmpty

/-- The queue of `src/src/lib.rs`.  The `Arc<Condvar>` field carries no data
and is omitted; `q` is the contents of the `Arc<Mutex<VecDeque<I>>>`. -/
@[ext]
structure Queue (I : Type) where
  q : List I
deriving Repr, DecidableEq

/-- `Queue::new`: a queue over an empty buffer and a fresh signal. -/
def Queue.new (I : Type) : Queue I := ⟨[]⟩

/-- `Queue::was_empty`: lock the buffer and report whether it is empty. -/
def Queue.was_empty {I : Type} (s : Queue I) : Bool := is_empty s.q

/-- `Queue::push`: lock the buffer, `push_back` the item, unlock, then
`notify_one` (the notification carries no data and is not modelled). -/
def Queue.push {I : Type} (s : Queue I) (item : I) : Queue I :=
  ⟨push_back s.q item⟩

/-- The `loop` inside `Queue::pop`: try `pop_front`; on `None`, wait on the
signal and retry.  `fuel` bounds the number of waits; with no concurrent
push, a wake-up leaves the buffer exactly as it was, so the retry runs on
the same list.  `none` means the loop is still blocked after `fuel` waits. -/
def popLoop {I : Type} (fuel : Nat) (q : List I) : Option (I × List I) :=
  match pop_front q with
  | some r => some r
  | none =>
    match fuel with
    | 0 => none
    | fuel + 1 => popLoop fuel q

/-- `Queue::pop` (blocking): run the wait loop on the locked buffer and
return the dequeued node together with the resulting queue state.  `none`
means the call is still blocked after `fuel` waits. -/
def Queue.pop {I : Type} (fuel : Nat) (s : Queue I) : Option (I × Queue I) :=
  (popLoop fuel s.q).map (fun r => (r.1, ⟨r.2⟩))

/-- The suspension handle `PopFuture<I>`.  In the source it holds only
`Arc` clones of the queue's signal and buffer — no per-handle state — so
here it is a field-free structure; the shared buffer is passed to `poll`
explicitly. -/
structure PopFuture (I : Type) where
deriving Repr, DecidableEq

/-- `Queue::apop`: build a suspension handle sharing this queue's buffer and
signal (`PopFuture::new` clones the two `Arc`s).  Returns the handle and the
queue state after the call. -/
def Queue.apop {I : Type} (s : Queue I) : PopFuture I × Queue I :=
  (PopFuture.mk, s)

/-- The poll result, `std::task::Poll`. -/
inductive Poll (α : Type) where
  | Ready : α → Poll α
  | Pending : Poll α
deriving Repr, DecidableEq

/-- `PopFuture::poll`: lock the shared buffer; if `pop_front` yields a node,
return it as `Ready`; otherwise spawn a helper waiter (which only calls the
waker and never dequeues, so it does not change the buffer) and return
`Pending` with the buffer untouched.  The result pairs the poll outcome
with the buffer state after the call. -/
def PopFuture.poll {I : Type} (_self : PopFuture I) (q : List I) :
    Poll I × List I :=
  match pop_front q with
  | some (node, rest) => (Poll.Ready node, rest)
  | none => (Poll.Pending, q)

/-- Push a whole list of items in order, left to right. -/
def pushAll {I : Type} (s : Queue I) (xs : List I) : Queue I :=
  xs.foldl Queue.push s

/-- Perform `n` successive blocking pops (each completes without waiting,
fuel 0), collecting the dequeued items in order; `none` if some pop blocks. -/
def popN {I : Type} : Nat → Queue I → Option (List I × Queue I)
  | 0, s => some ([], s)
  | n + 1, s =>
    match Queue.pop 0 s with
    | none => none
    | some (x, s1) =>
      match popN n s1 with
      | none => none
      | some (xs, s2) => some (x :: xs, s2)

/-- One operation of an interleaved history.  All three run their critical
section under the single lock, so a concurrent history is a sequence of
these atomic steps.  `popSync` is a completed blocking pop attempt and
`pollAsync` a poll of a suspension handle; on an empty buffer the former
stays blocked and the latter returns `Pending`, and in both cases the
buffer is unchanged and nothing is delivered. -/
inductive Op (I : Type) where
  | push : I → Op I
  | popSync : Op I
  | pollAsync : Op I

/-- One atomic step over the state (buffer, log of delivered items). -/
def step {I : Type} (s : List I × List I) (op : Op I) : List I × List I :=
  match op with
  | Op.push i => (push_back s.1 i, s.2)
  | Op.popSync =>
    match pop_front s.1 with
    | some (n, rest) => (rest, s.2 ++ [n])
    | none => s
  | Op.pollAsync =>
    match pop_front s.1 with
    | some (n, rest) => (rest, s.2 ++ [n])
    | none => s

/-- Run a history from the freshly constructed queue. -/
def run {I : Type} (ops : List (Op I)) : List I × List I :=
  ops.foldl step ([], [])

/-- The items pushed by a history, in push order. -/
def pushedList {I : Type} (ops : List (Op I)) : List I :=
  ops.filterMap (fun op => match op with
    | Op.push i => some i
    | _ => none)

/-! ### Helper lemmas -/

theorem pushAll_q {I : Type} (xs : List I) (s : Queue I) :
    (pushAll s xs).q = s.q ++ xs := by
  induction xs generalizing s with
  | nil => simp [pushAll]
  | cons x xs ih =>
    show (pushAll (Queue.push s x) xs).q = _
    rw [ih]
    simp [Queue.push, push_back]

theorem popLoop_cons {I : Type} (fuel : Nat) (x : I) (xs : List I) :
    popLoop fuel (x :: xs) = some (x, xs) := by
  cases fuel <;> simp [popLoop, pop_front]

theorem popLoop_nil {I : Type} (fuel : Nat) :
    popLoop fuel ([] : List I) = none := by
  induction fuel with
  | zero => simp [popLoop, pop_front]
  | succ n ih => simp [popLoop, pop_front, ih]

theorem popN_full {I : Type} (xs : List I) :
    popN xs.length (⟨xs⟩ : Queue I) = some (xs, ⟨[]⟩) := by
  induction xs with
  | nil => rfl
  | cons x xs ih =>
    show popN (xs.length + 1) ⟨x :: xs⟩ = _
    simp [popN, Queue.pop, popLoop_cons, ih]

theorem run_log_append {I : Type} (ops : List (Op I)) (s : List I × List I) :
    (ops.foldl step s).2 ++ (ops.foldl step s).1 =
      s.2 ++ s.1 ++ pushedList ops := by
  induction ops generalizing s with
  | nil => simp [pushedList]
  | cons op ops ih =>
    rw [List.foldl_cons, ih]
    cases op with
    | push i => simp [step, push_back, pushedList]
    | popSync =>
      cases h : s.1 with
      | nil => simp [step, pop_front, pushedList, h]
      | cons x xs => simp [step, pop_front, pushedList, h]
    | pollAsync =>
      cases h : s.1 with
      | nil => simp [step, pop_front, pushedList, h]
      | cons x xs => simp [step, pop_front, pushedList, h]

/-! ### Claim theorems -/

/-- Claim C1: sequential FIFO order.  For every sequence `xs` of pushed
items, pushing them in order onto a fresh queue and then popping
`xs.length` times (each pop completing immediately) returns exactly `xs`
in insertion order and drains the queue back to the fresh state.  The
`1, 2, 3` instance of the spec is the case `xs = [1, 2, 3]`. -/
theorem fifo_insertion_order {I : Type} (xs : List I) :
    popN xs.length (pushAll (Queue.new I) xs) = some (xs, Queue.new I) := by
  have h : pushAll (Queue.new I) xs = ⟨xs⟩ := by
    ext1
    rw [pushAll_q]
    simp [Queue.new]
  rw [h]
  exact popN_full xs

/-- Claim C2: on a non-empty queue, blocking `pop` removes exactly the head
(oldest) item and returns it, leaving the remaining items in their original
relative order, for any amount of wait fuel. -/
theorem pop_removes_head {I : Type} (fuel : Nat) (s : Queue I) (x : I)
    (rest : List I) (h : s.q = x :: rest) :
    Queue.pop fuel s = some (x, ⟨rest⟩) := by
  simp [Queue.pop, h, popLoop_cons]

theorem pop_removes_head_witness :
    Queue.pop 0 (⟨[1, 2, 3]⟩ : Queue Nat) = some (1, ⟨[2, 3]⟩) :=
  pop_removes_head 0 ⟨[1, 2, 3]⟩ 1 [2, 3] rfl

/-- Claim C3: `PopFuture::poll` returns `Ready` carrying the removed head
item exactly when the buffer is non-empty, returns `Pending` exactly when
the buffer is empty, and in the `Pending` case leaves the buffer unchanged
(the helper waiter never dequeues on behalf of the handle). -/
theorem poll_ready_iff_nonempty {I : Type} (f : PopFuture I) (q : List I) :
    (q = [] → PopFuture.poll f q = (Poll.Pending, q)) ∧
    (∀ (x : I) (rest : List I), q = x :: rest →
      PopFuture.poll f q = (Poll.Ready x, rest)) ∧
    ((PopFuture.poll f q).1 = Poll.Pending ↔ q = []) := by
  refine ⟨?_, ?_, ?_⟩
  · intro h; subst h; rfl
  · intro x rest h; subst h; rfl
  · cases q <;> simp [PopFuture.poll, pop_front]

theorem poll_ready_iff_nonempty_witness :
    PopFuture.poll PopFuture.mk ([] : List Nat) = (Poll.Pending, []) ∧
    PopFuture.poll PopFuture.mk [1, 2] = (Poll.Ready 1, [2]) :=
  ⟨(poll_ready_iff_nonempty PopFuture.mk []).1 rfl,
   (poll_ready_iff_nonempty PopFuture.mk [1, 2]).2.1 1 [2] rfl⟩

/-- Claim C4: `push` appends the item at the tail of the buffer, is total
(never fails, returns no error), grows the buffer length by exactly one,
and leaves all previously buffered items present in their prior order. -/
theorem push_appends_tail {I : Type} (s : Queue I) (i : I) :
    (Queue.push s i).q = s.q ++ [i] ∧
    (Queue.push s i).q.length = s.q.length + 1 ∧
    (Queue.push s i).q.take s.q.length = s.q := by
  refine ⟨rfl, ?_, ?_⟩ <;> simp [Queue.push, push_back]

/-- Claim C5: emptiness probe accuracy in a single-threaded sequence.
`new` yields an empty buffer whose probe reports empty; after one push the
probe reports non-empty; draining that item via `pop` returns the queue to
the fresh (empty) state, on which the probe again reports empty (the second
conjunct applied to the state returned in the fourth). -/
theorem probe_accuracy {I : Type} (i : I) :
    (Queue.new I).q = [] ∧
    Queue.was_empty (Queue.new I) = true ∧
    Queue.was_empty (Queue.push (Queue.new I) i) = false ∧
    Queue.pop 0 (Queue.push (Queue.new I) i) = some (i, Queue.new I) := by
  refine ⟨rfl, rfl, rfl, ?_⟩
  simp [Queue.pop, Queue.push, Queue.new, push_back, popLoop_cons]

/-- Claim C6: equivalence of the two pop interfaces on a non-empty queue.
For every non-empty buffer, a `Ready` result of `PopFuture::poll` carries
the same item and leaves the same buffer as the blocking `pop` loop. -/
theorem poll_refines_pop {I : Type} (f : PopFuture I) (fuel : Nat)
    (q : List I) (x : I) (rest : List I) (h : q ≠ []) :
    (PopFuture.poll f q = (Poll.Ready x, rest) ↔
      popLoop fuel q = some (x, rest)) := by
  cases q with
  | nil => exact absurd rfl h
  | cons y ys =>
    rw [popLoop_cons]
    simp [PopFuture.poll, pop_front]

theorem poll_refines_pop_witness :
    PopFuture.poll PopFuture.mk [5] = (Poll.Ready 5, ([] : List Nat)) ↔
      popLoop 0 [5] = some (5, []) :=
  poll_refines_pop PopFuture.mk 0 [5] 5 [] (by decide)

/-- Claim C7: `apop` has no immediate side effect.  Constructing a
suspension handle leaves the buffer, its contents and their order,
unchanged; the handle holds no state of its own beyond the shared
references. -/
theorem apop_no_side_effect {I : Type} (s : Queue I) :
    (Queue.apop s).2 = s := rfl

/-- Claim C8: `pop` returns only when an item is available.  On an empty
buffer with no concurrent push, no amount of wait fuel lets the loop
return (it blocks indefinitely); on a non-empty buffer the loop returns a
value immediately, for every fuel. -/
theorem pop_blocks_iff_empty {I : Type} (fuel : Nat) (q : List I) :
    (q = [] → popLoop fuel q = none) ∧
    (q ≠ [] → (popLoop fuel q).isSome = true) := by
  constructor
  · intro h; subst h; exact popLoop_nil fuel
  · intro h
    cases q with
    | nil => exact absurd rfl h
    | cons x xs => rw [popLoop_cons]; rfl

theorem pop_blocks_iff_empty_witness :
    popLoop 7 ([] : List Nat) = none ∧
    (popLoop 7 [3]).isSome = true :=
  ⟨(pop_blocks_iff_empty 7 ([] : List Nat)).1 rfl,
   (pop_blocks_iff_empty 7 [3]).2 (by decide)⟩

/-- Claim C9: conservation under concurrency.  All critical sections run
under the queue's single lock, so a concurrent history is a sequence of
atomic `step`s.  For every such interleaving of pushes, blocking pops and
suspension-handle polls, the pushed items equal the delivered log followed
by the remaining buffer: every pushed item is delivered to exactly one
successful pop, with no duplicates and no loss, and when the buffer is
drained the number popped equals the number pushed. -/
theorem conservation {I : Type} (ops : List (Op I)) :
    pushedList ops = (run ops).2 ++ (run ops).1 :=
  (run_log_append ops ([], [])).symm

/-- Claim C10: the single-use contract of a suspension handle is not
enforced.  After a poll of the handle `f` has returned `Ready`, polling
`f` again behaves exactly like a fresh dequeue attempt on the shared
buffer — `Ready` with the current head if non-empty, `Pending` otherwise —
and coincides with the poll of a freshly constructed handle from `apop`. -/
theorem repoll_after_ready {I : Type} (f : PopFuture I) (q : List I)
    (x : I) (q1 : List I) (h : PopFuture.poll f q = (Poll.Ready x, q1)) :
    (q1 = [] → PopFuture.poll f q1 = (Poll.Pending, q1)) ∧
    (∀ (y : I) (rest : List I), q1 = y :: rest →
      PopFuture.poll f q1 = (Poll.Ready y, rest)) ∧
    PopFuture.poll f q1 =
      PopFuture.poll (Queue.apop (⟨q1⟩ : Queue I)).1
        (Queue.apop (⟨q1⟩ : Queue I)).2.q := by
  refine ⟨?_, ?_, rfl⟩
  · intro he; subst he; rfl
  · intro y rest he; subst he; rfl

theorem repoll_after_ready_witness :
    PopFuture.poll PopFuture.mk ([] : List Nat) = (Poll.Pending, []) ∧
    PopFuture.poll PopFuture.mk [9, 4] = (Poll.Ready 9, [4]) :=
  ⟨(repoll_after_ready PopFuture.mk [1] 1 [] rfl).1 rfl,
   (repoll_after_ready PopFuture.mk [7, 9, 4] 7 [9, 4] rfl).2.1 9 [4] rfl⟩

end Sigq
